import Mathlib

/-!
Shallow embedding of the Timeline Composition & Rendering Engine
(`src/app/src/components/VideoComposerModule.tsx`) and of the shared state
container (the zustand store).  Durations and timestamps are modelled as
rational numbers; the JavaScript value `NaN` that a timestamp can carry is
modelled by `Option ℚ` with `none` playing the role of `NaN` (every ordered
comparison against `none` is `false`, and arithmetic on `none` yields `none`,
matching IEEE semantics at the points the code uses).
-/

namespace VideoComposer

/-- The transition kinds, from `TransitionType` in the store module. -/
inductive TransitionType where
  | nenhuma
  | crossfade
  | fadeIn
  | cineSweep
  | whiteFlash
deriving DecidableEq, Repr

/-- `TimelineClip` from the store module. -/
structure TimelineClip where
  id : String
  mediaId : String
  start : ℚ
  duration : ℚ
  transition : TransitionType
deriving DecidableEq, Repr

/-- `normalizeTimeline`'s loop: the code maps over the clips keeping a running
`cursor`, writing `cursor` into each clip's `start` and then advancing the
cursor by the clip's duration. -/
def normalizeFrom (cursor : ℚ) : List TimelineClip → List TimelineClip
  | [] => []
  | clip :: rest =>
      { clip with start := cursor } :: normalizeFrom (cursor + clip.duration) rest

/-- `normalizeTimeline` from `VideoComposerModule.tsx` (lines 164-171): the
cursor starts at `0`. -/
def normalizeTimeline (clips : List TimelineClip) : List TimelineClip :=
  normalizeFrom 0 clips

/-- Sum of the durations of the first `i` clips. -/
def sumTakeDur (l : List TimelineClip) (i : Nat) : ℚ :=
  ((l.take i).map TimelineClip.duration).sum

theorem sumTakeDur_zero (l : List TimelineClip) : sumTakeDur l 0 = 0 := rfl

theorem sumTakeDur_cons (x : TimelineClip) (xs : List TimelineClip) (i : Nat) :
    sumTakeDur (x :: xs) (i + 1) = x.duration + sumTakeDur xs i := by
  simp [sumTakeDur]

theorem normalizeFrom_length (l : List TimelineClip) :
    ∀ c : ℚ, (normalizeFrom c l).length = l.length := by
  induction l with
  | nil => intro c; rfl
  | cons x xs ih => intro c; simp [normalizeFrom, ih]

theorem normalizeFrom_get? (l : List TimelineClip) :
    ∀ (c : ℚ) (i : Nat),
      (normalizeFrom c l).get? i
        = (l.get? i).map (fun clip => { clip with start := c + sumTakeDur l i }) := by
  induction l with
  | nil => intro c i; simp [normalizeFrom]
  | cons x xs ih =>
      intro c i
      cases i with
      | zero => simp [normalizeFrom, sumTakeDur]
      | succ n =>
          have h := ih (c + x.duration) n
          simp only [normalizeFrom, List.get?_cons_succ, h, sumTakeDur_cons]
          cases xs.get? n with
          | none => rfl
          | some clip => simp [add_assoc]

theorem normalizeTimeline_get? (clips : List TimelineClip) (i : Nat) :
    (normalizeTimeline clips).get? i
      = (clips.get? i).map (fun clip => { clip with start := sumTakeDur clips i }) := by
  have h := normalizeFrom_get? clips 0 i
  simpa [normalizeTimeline] using h

theorem normalizeTimeline_length (clips : List TimelineClip) :
    (normalizeTimeline clips).length = clips.length :=
  normalizeFrom_length clips 0

theorem normalizeFrom_idem (l : List TimelineClip) :
    ∀ c : ℚ, normalizeFrom c (normalizeFrom c l) = normalizeFrom c l := by
  induction l with
  | nil => intro c; rfl
  | cons x xs ih => intro c; simp [normalizeFrom, ih]

theorem sumTakeDur_get?_succ (l : List TimelineClip) (i : Nat) (ci : TimelineClip)
    (h : l.get? i = some ci) :
    sumTakeDur l (i + 1) = sumTakeDur l i + ci.duration := by
  rw [List.get?_eq_getElem?] at h
  simp [sumTakeDur, List.take_succ, h]

/-- Claim C1: for clips with positive durations, the normalized starts satisfy
start₀ = 0 and startᵢ₊₁ = startᵢ + dᵢ (with dᵢ the i-th input duration), the
length is preserved, and normalizing its own output returns an equal list. -/
theorem normalizeTimeline_starts_and_idem (clips : List TimelineClip)
    (hpos : ∀ clip ∈ clips, 0 < clip.duration) :
    (normalizeTimeline clips).length = clips.length ∧
    (∀ c0, (normalizeTimeline clips).get? 0 = some c0 → c0.start = 0) ∧
    (∀ i ci ni ni1,
        clips.get? i = some ci →
        (normalizeTimeline clips).get? i = some ni →
        (normalizeTimeline clips).get? (i + 1) = some ni1 →
        ni1.start = ni.start + ci.duration) ∧
    normalizeTimeline (normalizeTimeline clips) = normalizeTimeline clips := by
  refine ⟨normalizeTimeline_length clips, ?_, ?_, ?_⟩
  · intro c0 h0
    rw [normalizeTimeline_get? clips 0] at h0
    cases hg : clips.get? 0 with
    | none => rw [hg] at h0; exact absurd h0 (by simp)
    | some clip =>
        rw [hg] at h0
        have hc : ({ clip with start := sumTakeDur clips 0 } : TimelineClip) = c0 :=
          Option.some.inj h0
        rw [← hc]
        exact sumTakeDur_zero clips
  · intro i ci ni ni1 hci hni hni1
    rw [normalizeTimeline_get? clips i, hci] at hni
    rw [normalizeTimeline_get? clips (i + 1)] at hni1
    cases hg : clips.get? (i + 1) with
    | none => rw [hg] at hni1; exact absurd hni1 (by simp)
    | some clip =>
        rw [hg] at hni1
        have h1 : ({ ci with start := sumTakeDur clips i } : TimelineClip) = ni :=
          Option.some.inj hni
        have h2 : ({ clip with start := sumTakeDur clips (i + 1) } : TimelineClip) = ni1 :=
          Option.some.inj hni1
        rw [← h1, ← h2]
        exact sumTakeDur_get?_succ clips i ci hci
  · exact normalizeFrom_idem clips 0

/-- Witness for Claim C1 at a concrete two-clip timeline. -/
theorem normalizeTimeline_starts_and_idem_witness :
    (∀ clip ∈ [(⟨"a", "m1", 5, 4, TransitionType.nenhuma⟩ : TimelineClip),
               (⟨"b", "m2", 7, 3, TransitionType.nenhuma⟩ : TimelineClip)],
        0 < clip.duration) ∧
    normalizeTimeline (normalizeTimeline
        [⟨"a", "m1", 5, 4, TransitionType.nenhuma⟩,
         ⟨"b", "m2", 7, 3, TransitionType.nenhuma⟩])
      = normalizeTimeline
        [⟨"a", "m1", 5, 4, TransitionType.nenhuma⟩,
         ⟨"b", "m2", 7, 3, TransitionType.nenhuma⟩] := by
  constructor
  · intro clip hclip
    simp only [List.mem_cons, List.mem_singleton] at hclip
    rcases hclip with h | h | h
    · rw [h]; norm_num
    · rw [h]; norm_num
    · cases h
  · exact (normalizeTimeline_starts_and_idem
      [⟨"a", "m1", 5, 4, TransitionType.nenhuma⟩,
       ⟨"b", "m2", 7, 3, TransitionType.nenhuma⟩]
      (by intro clip hclip
          simp only [List.mem_cons, List.mem_singleton] at hclip
          rcases hclip with h | h | h
          · rw [h]; norm_num
          · rw [h]; norm_num
          · cases h)).2.2.2

/-- Claim C9: `normalizeTimeline` changes only the `start` field — the output
has the same length, and at every index the id, mediaId, duration and
transition agree with the input clip at that index. -/
theorem normalizeTimeline_changes_only_start (clips : List TimelineClip) :
    (normalizeTimeline clips).length = clips.length ∧
    ∀ i : Nat,
      ((normalizeTimeline clips).get? i).map
          (fun n => (n.id, n.mediaId, n.duration, n.transition))
        = (clips.get? i).map
          (fun clip => (clip.id, clip.mediaId, clip.duration, clip.transition)) := by
  refine ⟨normalizeTimeline_length clips, ?_⟩
  intro i
  rw [normalizeTimeline_get? clips i]
  cases clips.get? i with
  | none => rfl
  | some clip => rfl

/-- JavaScript `time >= x` where `time` may be `NaN` (`none`): any comparison
with `NaN` is false. -/
def jsGe : Option ℚ → ℚ → Bool
  | some x, y => decide (y ≤ x)
  | none, _ => false

/-- JavaScript `time < x` where `time` may be `NaN`. -/
def jsLt : Option ℚ → ℚ → Bool
  | some x, y => decide (x < y)
  | none, _ => false

/-- JavaScript `time - x` where `time` may be `NaN`: `NaN` propagates. -/
def jsSub : Option ℚ → ℚ → Option ℚ
  | some x, y => some (x - y)
  | none, _ => none

/-- The predicate of the `findIndex` call in `renderFrame` (lines 353-355):
`time >= clip.start && time < clip.start + clip.duration`. -/
def clipContains (time : Option ℚ) (clip : TimelineClip) : Bool :=
  jsGe time clip.start && jsLt time (clip.start + clip.duration)

/-- `Array.prototype.findIndex`: index of the first element satisfying `p`,
with `none` standing for JavaScript's `-1`. -/
def findClipIdx (p : TimelineClip → Bool) : List TimelineClip → Option Nat
  | [] => none
  | c :: rest => if p c then some 0 else (findClipIdx p rest).map (· + 1)

/-- `safeIndex` from `renderFrame` (line 356): the found index, or the last
index when `findIndex` returned `-1`. -/
def safeClipIndex (tl : List TimelineClip) (time : Option ℚ) : Nat :=
  match findClipIdx (clipContains time) tl with
  | some i => i
  | none => tl.length - 1

/-- Total duration of a clip list (sum of the `duration` fields). -/
def totalDuration (clips : List TimelineClip) : ℚ :=
  (clips.map TimelineClip.duration).sum

theorem findClipIdx_eq_some (p : TimelineClip → Bool) (l : List TimelineClip) :
    ∀ i : Nat, findClipIdx p l = some i →
      ∃ c, l.get? i = some c ∧ p c = true := by
  induction l with
  | nil => intro i h; exact absurd h (by simp [findClipIdx])
  | cons x xs ih =>
      intro i h
      by_cases hp : p x
      · simp only [findClipIdx, if_pos hp] at h
        cases h
        exact ⟨x, rfl, hp⟩
      · simp only [findClipIdx, if_neg hp] at h
        cases hfind : findClipIdx p xs with
        | none => rw [hfind] at h; exact absurd h (by simp)
        | some j =>
            rw [hfind] at h
            simp only [Option.map_some'] at h
            obtain ⟨c, hc, hpc⟩ := ih j hfind
            cases Option.some.inj h
            exact ⟨c, by simpa using hc, hpc⟩

theorem findClipIdx_eq_none (p : TimelineClip → Bool) (l : List TimelineClip) :
    findClipIdx p l = none → ∀ c ∈ l, p c = false := by
  induction l with
  | nil => intro _ c hc; cases hc
  | cons x xs ih =>
      intro h c hc
      by_cases hp : p x
      · simp [findClipIdx, if_pos hp] at h
      · simp only [findClipIdx, if_neg hp, Option.map_eq_none'] at h
        rcases List.mem_cons.mp hc with hcx | hcxs
        · rw [hcx]; exact Bool.eq_false_iff.mpr hp
        · exact ih h c hcxs

theorem findClipIdx_of_all_false (p : TimelineClip → Bool) (l : List TimelineClip)
    (h : ∀ c ∈ l, p c = false) : findClipIdx p l = none := by
  induction l with
  | nil => rfl
  | cons x xs ih =>
      have hx : p x = false := h x (List.mem_cons_self x xs)
      simp only [findClipIdx, hx, Bool.false_eq_true, if_false]
      rw [ih (fun c hc => h c (List.mem_cons_of_mem x hc))]
      rfl

theorem sumTakeDur_nonneg (l : List TimelineClip)
    (hpos : ∀ clip ∈ l, 0 < clip.duration) (i : Nat) :
    0 ≤ sumTakeDur l i := by
  apply List.sum_nonneg
  intro x hx
  obtain ⟨c, hc, hcx⟩ := List.mem_map.mp hx
  rw [← hcx]
  exact le_of_lt (hpos c (List.mem_of_mem_take hc))

theorem sumTakeDur_le_succ (l : List TimelineClip)
    (hpos : ∀ clip ∈ l, 0 < clip.duration) (i : Nat) :
    sumTakeDur l i ≤ sumTakeDur l (i + 1) := by
  cases hg : l.get? i with
  | none =>
      have hlen : l.length ≤ i := List.get?_eq_none.mp hg
      simp [sumTakeDur, List.take_of_length_le hlen,
        List.take_of_length_le (Nat.le_succ_of_le hlen)]
  | some c =>
      rw [sumTakeDur_get?_succ l i c hg]
      have : 0 < c.duration := hpos c (List.get?_mem hg)
      linarith

theorem sumTakeDur_mono (l : List TimelineClip)
    (hpos : ∀ clip ∈ l, 0 < clip.duration) {i j : Nat} (hij : i ≤ j) :
    sumTakeDur l i ≤ sumTakeDur l j := by
  induction j with
  | zero => cases Nat.le_zero.mp hij; exact le_refl _
  | succ n ihn =>
      rcases Nat.lt_or_ge i (n + 1) with hlt | hge
      · exact le_trans (ihn (Nat.lt_succ_iff.mp hlt)) (sumTakeDur_le_succ l hpos n)
      · cases Nat.le_antisymm hij hge
        exact le_refl _

theorem sumTakeDur_length (l : List TimelineClip) :
    sumTakeDur l l.length = totalDuration l := by
  simp [sumTakeDur, totalDuration, List.take_of_length_le (le_refl l.length)]

theorem sumTakeDur_le_total (l : List TimelineClip)
    (hpos : ∀ clip ∈ l, 0 < clip.duration) (i : Nat) (hi : i ≤ l.length) :
    sumTakeDur l i ≤ totalDuration l := by
  rw [← sumTakeDur_length l]
  exact sumTakeDur_mono l hpos hi

theorem start_update (b : TimelineClip) (s : ℚ) :
    ({ b with start := s } : TimelineClip).start = s := rfl

theorem duration_update (b : TimelineClip) (s : ℚ) :
    ({ b with start := s } : TimelineClip).duration = b.duration := rfl

theorem exists_clip_containing (l : List TimelineClip) :
    ∀ c t : ℚ, (∀ clip ∈ l, 0 < clip.duration) → c ≤ t → t < c + totalDuration l →
      ∃ (i : Nat) (clip : TimelineClip),
        (normalizeFrom c l).get? i = some clip ∧ clipContains (some t) clip = true := by
  induction l with
  | nil =>
      intro c t _ hct htot
      simp only [totalDuration, List.map_nil, List.sum_nil, add_zero] at htot
      linarith
  | cons x xs ih =>
      intro c t hpos hct htot
      by_cases hx : t < c + x.duration
      · refine ⟨0, { x with start := c }, rfl, ?_⟩
        show (decide (c ≤ t) && decide (t < c + x.duration)) = true
        simp [hct, hx]
      · push_neg at hx
        have hpos' : ∀ clip ∈ xs, 0 < clip.duration :=
          fun clip hc => hpos clip (List.mem_cons_of_mem x hc)
        have htot' : t < (c + x.duration) + totalDuration xs := by
          have hsum : totalDuration (x :: xs) = x.duration + totalDuration xs := by
            simp [totalDuration]
          rw [hsum] at htot
          linarith
        obtain ⟨i, clip, hget, hcont⟩ := ih (c + x.duration) t hpos' hx htot'
        exact ⟨i + 1, clip, by simpa [normalizeFrom] using hget, hcont⟩

theorem clip_disjoint (clips : List TimelineClip)
    (hpos : ∀ clip ∈ clips, 0 < clip.duration) (t : ℚ) {i j : Nat}
    {ci cj : TimelineClip} (hij : i < j)
    (hi : (normalizeTimeline clips).get? i = some ci)
    (hj : (normalizeTimeline clips).get? j = some cj)
    (hci : clipContains (some t) ci = true)
    (hcj : clipContains (some t) cj = true) : False := by
  rw [normalizeTimeline_get? clips i] at hi
  rw [normalizeTimeline_get? clips j] at hj
  cases hgi : clips.get? i with
  | none => rw [hgi] at hi; exact absurd hi (by simp)
  | some bi =>
    cases hgj : clips.get? j with
    | none => rw [hgj] at hj; exact absurd hj (by simp)
    | some bj =>
        rw [hgi] at hi; rw [hgj] at hj
        have hci' := Option.some.inj hi
        have hcj' := Option.some.inj hj
        rw [← hci'] at hci
        rw [← hcj'] at hcj
        simp only [clipContains, jsGe, jsLt, start_update, duration_update,
          Bool.and_eq_true, decide_eq_true_eq] at hci hcj
        have hs1 : sumTakeDur clips (i + 1) = sumTakeDur clips i + bi.duration :=
          sumTakeDur_get?_succ clips i bi hgi
        have hmono : sumTakeDur clips (i + 1) ≤ sumTakeDur clips j :=
          sumTakeDur_mono clips hpos (Nat.succ_le_of_lt hij)
        have h1 := hci.2
        have h2 := hcj.1
        linarith

theorem clip_selection_unique (clips : List TimelineClip)
    (hpos : ∀ clip ∈ clips, 0 < clip.duration) (t : ℚ) {i j : Nat}
    {ci cj : TimelineClip}
    (hi : (normalizeTimeline clips).get? i = some ci)
    (hj : (normalizeTimeline clips).get? j = some cj)
    (hci : clipContains (some t) ci = true)
    (hcj : clipContains (some t) cj = true) : i = j := by
  rcases lt_trichotomy i j with h | h | h
  · exact absurd (clip_disjoint clips hpos t h hi hj hci hcj) (by simp)
  · exact h
  · exact absurd (clip_disjoint clips hpos t h hj hi hcj hci) (by simp)

theorem contains_false_of_total_le (clips : List TimelineClip)
    (hpos : ∀ clip ∈ clips, 0 < clip.duration) (t : ℚ)
    (ht : totalDuration clips ≤ t) :
    ∀ c ∈ normalizeTimeline clips, clipContains (some t) c = false := by
  intro c hc
  obtain ⟨n, hn⟩ := List.mem_iff_get?.mp hc
  rw [normalizeTimeline_get? clips n] at hn
  cases hgn : clips.get? n with
  | none => rw [hgn] at hn; exact absurd hn (by simp)
  | some b =>
      rw [hgn] at hn
      have hcb := Option.some.inj hn
      rw [← hcb]
      have hnlt : n < clips.length := by
        by_contra hge
        have hnone := List.get?_eq_none.mpr (Nat.le_of_not_lt hge)
        rw [hgn] at hnone
        cases hnone
      have hsucc : sumTakeDur clips (n + 1) ≤ totalDuration clips :=
        sumTakeDur_le_total clips hpos (n + 1) (Nat.succ_le_of_lt hnlt)
      have hs1 : sumTakeDur clips (n + 1) = sumTakeDur clips n + b.duration :=
        sumTakeDur_get?_succ clips n b hgn
      have h2 : decide (t < sumTakeDur clips n + b.duration) = false :=
        decide_eq_false (by linarith)
      show (decide (sumTakeDur clips n ≤ t)
          && decide (t < sumTakeDur clips n + b.duration)) = false
      rw [h2, Bool.and_false]

theorem contains_false_of_neg (clips : List TimelineClip)
    (hpos : ∀ clip ∈ clips, 0 < clip.duration) (t : ℚ) (ht : t < 0) :
    ∀ c ∈ normalizeTimeline clips, clipContains (some t) c = false := by
  intro c hc
  obtain ⟨n, hn⟩ := List.mem_iff_get?.mp hc
  rw [normalizeTimeline_get? clips n] at hn
  cases hgn : clips.get? n with
  | none => rw [hgn] at hn; exact absurd hn (by simp)
  | some b =>
      rw [hgn] at hn
      have hcb := Option.some.inj hn
      rw [← hcb]
      have hnn : 0 ≤ sumTakeDur clips n := sumTakeDur_nonneg clips hpos n
      have h1 : decide (sumTakeDur clips n ≤ t) = false :=
        decide_eq_false (by linarith)
      show (decide (sumTakeDur clips n ≤ t)
          && decide (t < sumTakeDur clips n + b.duration)) = false
      rw [h1, Bool.false_and]

theorem clipContains_nan (c : TimelineClip) : clipContains none c = false := rfl

/-- Claim C2: on a normalized non-empty timeline with positive durations, for
0 ≤ t < totalDuration the renderer's index (`findIndex` plus the `-1 → last`
fallback) points at the unique clip whose half-open interval [start,
start+duration) contains t, and for t ≥ totalDuration it points at the last
clip; the local time handed to drawing is t − selectedClip.start. -/
theorem renderFrame_clip_selection (clips : List TimelineClip) (hne : clips ≠ [])
    (hpos : ∀ clip ∈ clips, 0 < clip.duration) (t : ℚ) :
    (0 ≤ t → t < totalDuration clips →
      ∃ clip,
        (normalizeTimeline clips).get?
            (safeClipIndex (normalizeTimeline clips) (some t)) = some clip ∧
        clipContains (some t) clip = true ∧
        (∀ j cj, (normalizeTimeline clips).get? j = some cj →
            clipContains (some t) cj = true →
            j = safeClipIndex (normalizeTimeline clips) (some t)) ∧
        jsSub (some t) clip.start = some (t - clip.start)) ∧
    (totalDuration clips ≤ t →
      safeClipIndex (normalizeTimeline clips) (some t)
          = (normalizeTimeline clips).length - 1 ∧
      ∃ clip,
        (normalizeTimeline clips).get?
            ((normalizeTimeline clips).length - 1) = some clip ∧
        jsSub (some t) clip.start = some (t - clip.start)) := by
  constructor
  · intro ht0 httot
    obtain ⟨i0, clip0, hget0, hcont0⟩ :=
      exists_clip_containing clips 0 t hpos ht0 (by simpa using httot)
    cases hfind : findClipIdx (clipContains (some t)) (normalizeTimeline clips) with
    | none =>
        have hfalse := findClipIdx_eq_none _ _ hfind clip0 (List.get?_mem hget0)
        rw [hcont0] at hfalse
        cases hfalse
    | some k =>
        obtain ⟨ck, hck, hpk⟩ := findClipIdx_eq_some _ _ k hfind
        have hsafe : safeClipIndex (normalizeTimeline clips) (some t) = k := by
          simp [safeClipIndex, hfind]
        refine ⟨ck, by rw [hsafe]; exact hck, hpk, ?_, rfl⟩
        intro j cj hj hcj
        rw [hsafe]
        exact clip_selection_unique clips hpos t hj hck hcj hpk
  · intro htle
    have hall := contains_false_of_total_le clips hpos t htle
    have hfind : findClipIdx (clipContains (some t)) (normalizeTimeline clips) = none :=
      findClipIdx_of_all_false _ _ hall
    refine ⟨by simp [safeClipIndex, hfind], ?_⟩
    have hlen : 0 < (normalizeTimeline clips).length := by
      rw [normalizeTimeline_length]
      exact List.length_pos.mpr hne
    cases hg : (normalizeTimeline clips).get?
        ((normalizeTimeline clips).length - 1) with
    | none =>
        have := List.get?_eq_none.mp hg
        omega
    | some clip => exact ⟨clip, rfl, rfl⟩

/-- Witness for Claim C2, following the spec's end-to-end scenario 1: two
clips of durations 4 and 3; t = 5 falls in the second clip, t = 10 clamps to
the last clip. -/
theorem renderFrame_clip_selection_witness :
    ((0:ℚ) ≤ 5 → (5:ℚ) < totalDuration
        [⟨"a", "m1", 0, 4, TransitionType.nenhuma⟩,
         ⟨"b", "m2", 0, 3, TransitionType.nenhuma⟩] →
      ∃ clip,
        (normalizeTimeline
            [⟨"a", "m1", 0, 4, TransitionType.nenhuma⟩,
             ⟨"b", "m2", 0, 3, TransitionType.nenhuma⟩]).get?
            (safeClipIndex (normalizeTimeline
                [⟨"a", "m1", 0, 4, TransitionType.nenhuma⟩,
                 ⟨"b", "m2", 0, 3, TransitionType.nenhuma⟩]) (some 5)) = some clip ∧
        clipContains (some 5) clip = true ∧
        (∀ j cj, (normalizeTimeline
              [⟨"a", "m1", 0, 4, TransitionType.nenhuma⟩,
               ⟨"b", "m2", 0, 3, TransitionType.nenhuma⟩]).get? j = some cj →
            clipContains (some 5) cj = true →
            j = safeClipIndex (normalizeTimeline
                [⟨"a", "m1", 0, 4, TransitionType.nenhuma⟩,
                 ⟨"b", "m2", 0, 3, TransitionType.nenhuma⟩]) (some 5)) ∧
        jsSub (some 5) clip.start = some (5 - clip.start)) ∧
    (totalDuration
        [⟨"a", "m1", 0, 4, TransitionType.nenhuma⟩,
         ⟨"b", "m2", 0, 3, TransitionType.nenhuma⟩] ≤ 10 →
      safeClipIndex (normalizeTimeline
          [⟨"a", "m1", 0, 4, TransitionType.nenhuma⟩,
           ⟨"b", "m2", 0, 3, TransitionType.nenhuma⟩]) (some 10)
        = (normalizeTimeline
            [⟨"a", "m1", 0, 4, TransitionType.nenhuma⟩,
             ⟨"b", "m2", 0, 3, TransitionType.nenhuma⟩]).length - 1 ∧
      ∃ clip,
        (normalizeTimeline
            [⟨"a", "m1", 0, 4, TransitionType.nenhuma⟩,
             ⟨"b", "m2", 0, 3, TransitionType.nenhuma⟩]).get?
            ((normalizeTimeline
                [⟨"a", "m1", 0, 4, TransitionType.nenhuma⟩,
                 ⟨"b", "m2", 0, 3, TransitionType.nenhuma⟩]).length - 1) = some clip ∧
        jsSub (some 10) clip.start = some (10 - clip.start)) := by
  constructor
  · exact (renderFrame_clip_selection
      [⟨"a", "m1", 0, 4, TransitionType.nenhuma⟩,
       ⟨"b", "m2", 0, 3, TransitionType.nenhuma⟩]
      (by simp)
      (by intro clip hclip
          simp only [List.mem_cons, List.mem_singleton] at hclip
          rcases hclip with h | h | h
          · rw [h]; norm_num
          · rw [h]; norm_num
          · cases h) 5).1
  · exact (renderFrame_clip_selection
      [⟨"a", "m1", 0, 4, TransitionType.nenhuma⟩,
       ⟨"b", "m2", 0, 3, TransitionType.nenhuma⟩]
      (by simp)
      (by intro clip hclip
          simp only [List.mem_cons, List.mem_singleton] at hclip
          rcases hclip with h | h | h
          · rw [h]; norm_num
          · rw [h]; norm_num
          · cases h) 10).2

/-- Claim C3, counterexample to the claim as stated: on the normalized
two-clip timeline with durations 1 and 1, rendering at timestamp −1 selects
index 1 (the last clip), not index 0 (the first clip): with a negative
timestamp every `time >= clip.start` test fails, `findIndex` returns −1, and
the fallback picks the last clip. -/
theorem renderFrame_negative_counterexample :
    safeClipIndex (normalizeTimeline
        [⟨"a", "m1", 0, 1, TransitionType.nenhuma⟩,
         ⟨"b", "m2", 0, 1, TransitionType.nenhuma⟩]) (some (-1)) = 1 ∧
    (1 : Nat) ≠ 0 := by
  constructor
  · norm_num [safeClipIndex, findClipIdx, clipContains, jsGe, jsLt,
      normalizeTimeline, normalizeFrom]
  · norm_num

/-- Claim C3 (amended): for a normalized non-empty timeline with positive
durations, a negative or NaN timestamp matches no clip interval, so the
renderer falls through to the last-clip clamping fallback: it selects the
last clip, and the local time handed on is t − lastClip.start (NaN for a NaN
timestamp), not 0. -/
theorem renderFrame_negative_or_nan_selects_last (clips : List TimelineClip)
    (hne : clips ≠ []) (hpos : ∀ clip ∈ clips, 0 < clip.duration)
    (t : ℚ) (hneg : t < 0) :
    safeClipIndex (normalizeTimeline clips) (some t)
        = (normalizeTimeline clips).length - 1 ∧
    safeClipIndex (normalizeTimeline clips) none
        = (normalizeTimeline clips).length - 1 ∧
    (∀ clip, (normalizeTimeline clips).get?
        ((normalizeTimeline clips).length - 1) = some clip →
      jsSub (some t) clip.start = some (t - clip.start) ∧
      jsSub none clip.start = none) := by
  have hallneg := contains_false_of_neg clips hpos t hneg
  have hfindneg : findClipIdx (clipContains (some t)) (normalizeTimeline clips) = none :=
    findClipIdx_of_all_false _ _ hallneg
  have hallnan : ∀ c ∈ normalizeTimeline clips, clipContains none c = false :=
    fun c _ => clipContains_nan c
  have hfindnan : findClipIdx (clipContains none) (normalizeTimeline clips) = none :=
    findClipIdx_of_all_false _ _ hallnan
  exact ⟨by simp [safeClipIndex, hfindneg], by simp [safeClipIndex, hfindnan],
    fun clip _ => ⟨rfl, rfl⟩⟩

/-- Witness for the amended Claim C3 at the concrete two-clip timeline and
timestamp −1. -/
theorem renderFrame_negative_or_nan_selects_last_witness :
    safeClipIndex (normalizeTimeline
        [⟨"a", "m1", 0, 1, TransitionType.nenhuma⟩,
         ⟨"b", "m2", 0, 1, TransitionType.nenhuma⟩]) (some (-1))
        = (normalizeTimeline
            [⟨"a", "m1", 0, 1, TransitionType.nenhuma⟩,
             ⟨"b", "m2", 0, 1, TransitionType.nenhuma⟩]).length - 1 ∧
    safeClipIndex (normalizeTimeline
        [⟨"a", "m1", 0, 1, TransitionType.nenhuma⟩,
         ⟨"b", "m2", 0, 1, TransitionType.nenhuma⟩]) none
        = (normalizeTimeline
            [⟨"a", "m1", 0, 1, TransitionType.nenhuma⟩,
             ⟨"b", "m2", 0, 1, TransitionType.nenhuma⟩]).length - 1 ∧
    (∀ clip, (normalizeTimeline
        [⟨"a", "m1", 0, 1, TransitionType.nenhuma⟩,
         ⟨"b", "m2", 0, 1, TransitionType.nenhuma⟩]).get?
        ((normalizeTimeline
            [⟨"a", "m1", 0, 1, TransitionType.nenhuma⟩,
             ⟨"b", "m2", 0, 1, TransitionType.nenhuma⟩]).length - 1) = some clip →
      jsSub (some (-1)) clip.start = some (-1 - clip.start) ∧
      jsSub none clip.start = none) :=
  renderFrame_negative_or_nan_selects_last
    [⟨"a", "m1", 0, 1, TransitionType.nenhuma⟩,
     ⟨"b", "m2", 0, 1, TransitionType.nenhuma⟩]
    (by simp)
    (by intro clip hclip
        simp only [List.mem_cons, List.mem_singleton] at hclip
        rcases hclip with h | h | h
        · rw [h]; norm_num
        · rw [h]; norm_num
        · cases h)
    (-1) (by norm_num)

/-- JavaScript `x / c` on a possibly-NaN operand. -/
def jsDiv : Option ℚ → ℚ → Option ℚ
  | some x, c => some (x / c)
  | none, _ => none

/-- `Math.min(1, Math.max(0, x))` on a possibly-NaN operand (NaN propagates
through `Math.min`/`Math.max`). -/
def jsClamp01 : Option ℚ → Option ℚ
  | some x => some (min 1 (max 0 x))
  | none => none

/-- `1 - x` on a possibly-NaN operand. -/
def jsOneMinus : Option ℚ → Option ℚ
  | some x => some (1 - x)
  | none => none

/-- `Math.max(0, 1 - x * 2)` on a possibly-NaN operand, the white-flash
`opacity` computation of `applyTransitionOverlay` (line 237). -/
def jsWhiteFlashOpacity : Option ℚ → Option ℚ
  | some x => some (max 0 (1 - x * 2))
  | none => none

/-- `x.toFixed(2)` as a numeric value: the opacity is formatted to two
decimal places before entering the rgba fill-style string (line 239), so the
alpha the canvas composites is the multiple of 1/100 nearest to `x`, ties
resolved upward (ECMAScript picks the larger candidate). -/
def toFixed2 (x : ℚ) : ℚ :=
  (⌊x * 100 + 1 / 2⌋ : ℚ) / 100

theorem toFixed2_zero : toFixed2 0 = 0 := by
  have h : ⌊(0 : ℚ) * 100 + 1 / 2⌋ = 0 := by
    rw [Int.floor_eq_iff]
    norm_num
  rw [toFixed2, h]
  norm_num

/-- The fixed transition window `TRANSITION_DURATION = 0.6` seconds. -/
def TRANSITION_WINDOW : ℚ := 3 / 5

/-- One canvas operation issued by the renderer.  `fillBackground` is the
opaque background fill that opens every `renderFrame` call; `drawMediaCall`
records a `drawMedia(ctx, media, timestamp, alpha)` invocation; the overlay
constructors record the transition overlays (`fade-in`'s black fill,
`white-flash`'s white fill, `cine-sweep`'s wipe). -/
inductive CanvasOp where
  | fillBackground
  | drawMediaCall (mediaId : String) (timestamp : Option ℚ) (alpha : Option ℚ)
  | fadeOverlay (opacity : Option ℚ)
  | whiteOverlay (opacity : Option ℚ)
  | sweepOverlay (progress : Option ℚ)
deriving DecidableEq, Repr

/-- `applyTransitionOverlay` (lines 231-253): for `white-flash`, a white
fill whose composited alpha is the computed opacity
`Math.max(0, 1 - progress * 2)` formatted with `toFixed(2)` into the rgba
fill-style string (line 239); the wipe for `cine-sweep`; nothing for any
other kind. -/
def applyTransitionOverlay (type : TransitionType) (progress : Option ℚ) :
    List CanvasOp :=
  match type with
  | TransitionType.whiteFlash =>
      [CanvasOp.whiteOverlay ((jsWhiteFlashOpacity progress).map toFixed2)]
  | TransitionType.cineSweep => [CanvasOp.sweepOverlay progress]
  | _ => []

/-- The trace of canvas operations issued by `renderFrame` (lines 346-395).
The media cache is modelled as the list of asset ids whose playable handle is
present.  The function mirrors the source: background fill first, early
return on an empty timeline, clip selection via `findIndex` with the last-clip
fallback, early return when the selected clip's handle is missing from the
cache, then the crossfade branch (drawing the previous clip only if its
handle is cached) or the plain draw followed by the fade-in / white-flash /
cine-sweep overlay. -/
def renderFrameOps (tl : List TimelineClip) (cache : List String)
    (time : Option ℚ) : List CanvasOp :=
  CanvasOp.fillBackground ::
    (if tl.isEmpty then []
     else
       match tl.get? (safeClipIndex tl time) with
       | none => []
       | some currentClip =>
         if cache.contains currentClip.mediaId then
           let localTime := jsSub time currentClip.start
           let progress := jsClamp01 (jsDiv localTime TRANSITION_WINDOW)
           let previousClip :=
             if safeClipIndex tl time = 0 then none
             else tl.get? (safeClipIndex tl time - 1)
           match currentClip.transition, previousClip with
           | TransitionType.crossfade, some prev =>
               (if cache.contains prev.mediaId then
                  [CanvasOp.drawMediaCall prev.mediaId
                    (localTime.map
                      (fun lt => prev.duration - (TRANSITION_WINDOW - lt)))
                    (jsOneMinus progress)]
                else []) ++
               [CanvasOp.drawMediaCall currentClip.mediaId localTime progress]
           | TransitionType.fadeIn, _ =>
               [CanvasOp.drawMediaCall currentClip.mediaId localTime (some 1),
                CanvasOp.fadeOverlay (jsOneMinus progress)]
           | TransitionType.whiteFlash, _ =>
               CanvasOp.drawMediaCall currentClip.mediaId localTime (some 1) ::
                 applyTransitionOverlay TransitionType.whiteFlash progress
           | TransitionType.cineSweep, _ =>
               CanvasOp.drawMediaCall currentClip.mediaId localTime (some 1) ::
                 applyTransitionOverlay TransitionType.cineSweep progress
           | _, _ =>
               [CanvasOp.drawMediaCall currentClip.mediaId localTime (some 1)]
         else [])

/-- Claim C4, counterexample to the claim as stated: with a one-clip
normalized timeline and an empty media cache, `renderFrame` does NOT leave
the canvas untouched — it has already filled the whole surface with the
background color before the cache test, so the operation trace is the
background fill, not the empty trace of an unmodified surface. -/
theorem renderFrame_missing_media_counterexample :
    renderFrameOps (normalizeTimeline [⟨"a", "m1", 0, 2, TransitionType.nenhuma⟩])
        [] (some 0) = [CanvasOp.fillBackground] ∧
    [CanvasOp.fillBackground] ≠ ([] : List CanvasOp) := by
  refine ⟨?_, by simp⟩
  norm_num [renderFrameOps, normalizeTimeline, normalizeFrom, safeClipIndex,
    findClipIdx, clipContains, jsGe, jsLt]

/-- Claim C4 (amended): whenever the selected clip's media handle is absent
from the cache, `renderFrame` skips the frame without failing (the trace
function is total and returns), drawing no media and no overlay; but it has
already cleared the surface, so the trace is exactly the background fill and
the previous frame is replaced by the background color rather than left on
screen. -/
theorem renderFrame_missing_media_skips (tl : List TimelineClip)
    (cache : List String) (time : Option ℚ) (clip : TimelineClip)
    (hclip : tl.get? (safeClipIndex tl time) = some clip)
    (hmiss : cache.contains clip.mediaId = false) :
    renderFrameOps tl cache time = [CanvasOp.fillBackground] := by
  have hne : tl.isEmpty = false := by
    cases tl with
    | nil => simp at hclip
    | cons x xs => rfl
  rw [List.get?_eq_getElem?] at hclip
  have hmem : ¬ clip.mediaId ∈ cache := by simpa using hmiss
  simp [renderFrameOps, hne, hclip, hmem]

/-- Witness for the amended Claim C4: one-clip timeline whose media "m1" is
not in the cache (which holds only "other"). -/
theorem renderFrame_missing_media_skips_witness :
    renderFrameOps (normalizeTimeline [⟨"a", "m1", 0, 2, TransitionType.nenhuma⟩])
        ["other"] (some 0) = [CanvasOp.fillBackground] :=
  renderFrame_missing_media_skips
    (normalizeTimeline [⟨"a", "m1", 0, 2, TransitionType.nenhuma⟩])
    ["other"] (some 0) ⟨"a", "m1", 0, 2, TransitionType.nenhuma⟩
    (by norm_num [normalizeTimeline, normalizeFrom, safeClipIndex,
        findClipIdx, clipContains, jsGe, jsLt])
    (by simp)

/-- Claim C7, counterexample to the claim as stated: at p = 1/3 the computed
opacity max(0, 1 − 2p) = 1/3, but the overlay the canvas composites carries
the `toFixed(2)`-rounded value 0.33, so the overlay opacity is NOT exactly
max(0, 1 − 2·p) at every p in [0,1]. -/
theorem whiteFlash_overlay_opacity_counterexample :
    applyTransitionOverlay TransitionType.whiteFlash (some (1 / 3))
        = [CanvasOp.whiteOverlay (some (33 / 100))] ∧
    (33 / 100 : ℚ) ≠ max 0 (1 - 2 * (1 / 3)) := by
  constructor
  · have hmax : max (0 : ℚ) (1 - 1 / 3 * 2) = 1 / 3 := by
      rw [max_eq_right (by norm_num : (0 : ℚ) ≤ 1 - 1 / 3 * 2)]
      norm_num
    have hfl : ⌊(1 : ℚ) / 3 * 100 + 1 / 2⌋ = (33 : ℤ) := by
      rw [Int.floor_eq_iff]
      norm_num
    simp only [applyTransitionOverlay, jsWhiteFlashOpacity, Option.map_some',
      hmax, toFixed2, hfl]
    norm_num
  · have hmax : max (0 : ℚ) (1 - 2 * (1 / 3)) = 1 / 3 := by
      rw [max_eq_right (by norm_num : (0 : ℚ) ≤ 1 - 2 * (1 / 3))]
      norm_num
    rw [hmax]
    norm_num

/-- Claim C7 (amended): for progress p in [0,1] the white-flash overlay is a
white fill whose composited opacity is max(0, 1 − 2p) rounded to two
decimals by `toFixed(2)`; the rounding fixes 0, so the overlay opacity is
exactly 0 at p = 1/2 and stays 0 for every p ≥ 1/2. -/
theorem whiteFlash_overlay_opacity_rounded (p : ℚ) (h0 : 0 ≤ p) (h1 : p ≤ 1) :
    applyTransitionOverlay TransitionType.whiteFlash (some p)
        = [CanvasOp.whiteOverlay (some (toFixed2 (max 0 (1 - 2 * p))))] ∧
    applyTransitionOverlay TransitionType.whiteFlash (some (1 / 2))
        = [CanvasOp.whiteOverlay (some 0)] ∧
    (1 / 2 ≤ p → applyTransitionOverlay TransitionType.whiteFlash (some p)
        = [CanvasOp.whiteOverlay (some 0)]) := by
  refine ⟨?_, ?_, ?_⟩
  · simp [applyTransitionOverlay, jsWhiteFlashOpacity, mul_comm]
  · have hmax : max (0 : ℚ) (1 - 1 / 2 * 2) = 0 := by norm_num
    simp [applyTransitionOverlay, jsWhiteFlashOpacity, hmax, toFixed2_zero]
  · intro hhalf
    have hmax : max 0 (1 - p * 2) = 0 := max_eq_left (by linarith)
    simp [applyTransitionOverlay, jsWhiteFlashOpacity, hmax, toFixed2_zero]

/-- Witness for the amended Claim C7 at p = 3/4: the composited overlay
opacity there is 0. -/
theorem whiteFlash_overlay_opacity_rounded_witness :
    (0 : ℚ) ≤ 3 / 4 ∧ (3 / 4 : ℚ) ≤ 1 ∧
    (applyTransitionOverlay TransitionType.whiteFlash (some (3 / 4))
        = [CanvasOp.whiteOverlay (some (toFixed2 (max 0 (1 - 2 * (3 / 4)))))] ∧
     applyTransitionOverlay TransitionType.whiteFlash (some (1 / 2))
        = [CanvasOp.whiteOverlay (some 0)] ∧
     ((1 : ℚ) / 2 ≤ 3 / 4 → applyTransitionOverlay TransitionType.whiteFlash
          (some (3 / 4)) = [CanvasOp.whiteOverlay (some 0)])) :=
  ⟨by norm_num, by norm_num,
    whiteFlash_overlay_opacity_rounded (3 / 4) (by norm_num) (by norm_num)⟩

/-- The fields of `GeneratedAudio` (store module) that the composer core
reads: the id, the measured playable duration, and the estimate used as a
fallback. -/
structure GeneratedAudio where
  id : String
  durationSeconds : ℚ
  durationEstimateSeconds : ℚ
deriving DecidableEq, Repr

/-- `activeAudio.durationSeconds || activeAudio.durationEstimateSeconds`
(line 290): JavaScript `||` falls back to the estimate when
`durationSeconds` is falsy (0 for a number). -/
def effectiveAudioDuration (a : GeneratedAudio) : ℚ :=
  if a.durationSeconds = 0 then a.durationEstimateSeconds else a.durationSeconds

/-- `compositionDuration` (line 288): a reduce over the normalized timeline
accumulating the durations from 0. -/
def compositionDuration (timeline : List TimelineClip) : ℚ :=
  (normalizeTimeline timeline).foldl (fun total clip => total + clip.duration) 0

/-- `durationMismatch` (lines 289-290), given that an active audio exists. -/
def durationMismatch (a : GeneratedAudio) (timeline : List TimelineClip) : Bool :=
  decide (|effectiveAudioDuration a - compositionDuration timeline| > 4 / 5)

theorem foldl_add_duration (l : List TimelineClip) :
    ∀ a : ℚ, l.foldl (fun total clip => total + clip.duration) a
      = a + totalDuration l := by
  induction l with
  | nil => intro a; simp [totalDuration]
  | cons x xs ih =>
      intro a
      simp only [List.foldl_cons, ih (a + x.duration)]
      have : totalDuration (x :: xs) = x.duration + totalDuration xs := by
        simp [totalDuration]
      rw [this]
      ring

theorem normalizeFrom_map_duration (l : List TimelineClip) :
    ∀ c : ℚ, (normalizeFrom c l).map TimelineClip.duration
      = l.map TimelineClip.duration := by
  induction l with
  | nil => intro c; rfl
  | cons x xs ih => intro c; simp [normalizeFrom, ih]

theorem compositionDuration_eq_totalDuration (timeline : List TimelineClip) :
    compositionDuration timeline = totalDuration timeline := by
  rw [compositionDuration, foldl_add_duration, zero_add]
  show totalDuration (normalizeTimeline timeline) = totalDuration timeline
  rw [totalDuration, totalDuration, normalizeTimeline, normalizeFrom_map_duration]

/-- Claim C5: with an active audio track of (effective) duration A and a
timeline whose clip durations sum to T, the duration-mismatch advisory fires
iff |A − T| > 0.8 seconds.  (The code measures T over the normalized
timeline; normalization preserves durations, so T is the plain sum.) -/
theorem durationMismatch_iff (a : GeneratedAudio) (timeline : List TimelineClip) :
    durationMismatch a timeline = true ↔
      |effectiveAudioDuration a - totalDuration timeline| > 4 / 5 := by
  rw [durationMismatch, compositionDuration_eq_totalDuration]
  exact decide_eq_true_iff

/-- `PlayerState` (lines 255-259). -/
structure PlayerState where
  isPlaying : Bool
  isExporting : Bool
  currentTime : ℚ
deriving DecidableEq, Repr

/-- What a call to `handleExport` does before its render loop starts: whether
a `MediaRecorder` was created, whether the canvas capture stream was opened,
and the resulting player state. -/
structure ExportOutcome where
  recorderCreated : Bool
  captureStreamOpened : Bool
  player : PlayerState
deriving DecidableEq, Repr

/-- `activeAudio` (line 286):
`audios.find((audio) => audio.id === activeAudioId) ?? audios[0]`. -/
def activeAudioOf (audios : List GeneratedAudio) (activeAudioId : Option String) :
    Option GeneratedAudio :=
  match audios.find? (fun audio => decide (some audio.id = activeAudioId)) with
  | some audio => some audio
  | none => audios.head?

/-- `handleExport` (lines 512-579) up to its first effects: the guard on
lines 513-514 returns before any capture stream or recorder is created and
before any `setPlayerState`; past the guard, the capture stream is opened,
the recorder is created, and the player state gains
`isExporting = true, isPlaying = true` (line 557). -/
def handleExport (canvasPresent audioElPresent : Bool)
    (audios : List GeneratedAudio) (activeAudioId : Option String)
    (timeline : List TimelineClip) (s : PlayerState) : ExportOutcome :=
  if !canvasPresent || (activeAudioOf audios activeAudioId).isNone
      || timeline.isEmpty then
    ⟨false, false, s⟩
  else if !audioElPresent then ⟨false, false, s⟩
  else ⟨true, true, { s with isExporting := true, isPlaying := true }⟩

/-- Claim C6: export with an empty timeline, or with no resolvable active
audio (the audio list is empty, so the `?? audios[0]` fallback also yields
nothing), is a no-op: no recorder, no capture stream, player state
unchanged. -/
theorem handleExport_noop (canvasPresent audioElPresent : Bool)
    (audios : List GeneratedAudio) (activeAudioId : Option String)
    (timeline : List TimelineClip) (s : PlayerState)
    (h : timeline = [] ∨ audios = []) :
    handleExport canvasPresent audioElPresent audios activeAudioId timeline s
      = ⟨false, false, s⟩ := by
  rcases h with h | h
  · subst h
    simp [handleExport]
  · subst h
    simp [handleExport, activeAudioOf]

/-- Witness for Claim C6: a one-clip timeline but no audio at all. -/
theorem handleExport_noop_witness :
    (([(⟨"c", "m1", 0, 2, TransitionType.nenhuma⟩ : TimelineClip)]
        = ([] : List TimelineClip)) ∨
      (([] : List GeneratedAudio) = [])) ∧
    handleExport true true [] none
        [⟨"c", "m1", 0, 2, TransitionType.nenhuma⟩] ⟨false, false, 0⟩
      = ⟨false, false, ⟨false, false, 0⟩⟩ :=
  ⟨Or.inr rfl,
    handleExport_noop true true [] none
      [⟨"c", "m1", 0, 2, TransitionType.nenhuma⟩] ⟨false, false, 0⟩
      (Or.inr rfl)⟩

/-- The slice of the zustand store that `removeAudio` touches. -/
structure StoreState where
  audios : List GeneratedAudio
  activeAudioId : Option String
deriving DecidableEq, Repr

/-- `removeAudio` from the store (lines 80-89 of the store module): keep the
audios whose id differs, and when the removed id was the active one, fall to
the first remaining audio's id or null. -/
def removeAudio (id : String) (s : StoreState) : StoreState :=
  let remaining := s.audios.filter (fun audio => audio.id != id)
  let nextActive :=
    if s.activeAudioId = some id then remaining.head?.map GeneratedAudio.id
    else s.activeAudioId
  ⟨remaining, nextActive⟩

/-- Claim C10: `removeAudio id` removes exactly the audios with that id;
the active reference is unchanged when it was not `id`, becomes the first
remaining audio's id (or null if none remain) when it was `id`, and the
"active id is null or present in the list" invariant is preserved. -/
theorem removeAudio_spec (id : String) (s : StoreState) :
    (∀ a : GeneratedAudio,
        a ∈ (removeAudio id s).audios ↔ (a ∈ s.audios ∧ a.id ≠ id)) ∧
    (s.activeAudioId ≠ some id →
        (removeAudio id s).activeAudioId = s.activeAudioId) ∧
    (s.activeAudioId = some id →
        ((removeAudio id s).audios = [] →
            (removeAudio id s).activeAudioId = none) ∧
        (∀ a rest, (removeAudio id s).audios = a :: rest →
            (removeAudio id s).activeAudioId = some a.id)) ∧
    ((s.activeAudioId = none ∨ ∃ a ∈ s.audios, s.activeAudioId = some a.id) →
      ((removeAudio id s).activeAudioId = none ∨
        ∃ a ∈ (removeAudio id s).audios,
          (removeAudio id s).activeAudioId = some a.id)) := by
  refine ⟨?_, ?_, ?_, ?_⟩
  · intro a
    simp [removeAudio, List.mem_filter]
  · intro h
    simp [removeAudio, if_neg h]
  · intro h
    constructor
    · intro hempty
      simp only [removeAudio] at hempty ⊢
      rw [if_pos h, hempty]
      rfl
    · intro a rest hcons
      simp only [removeAudio] at hcons ⊢
      rw [if_pos h, hcons]
      rfl
  · intro hinv
    by_cases hid : s.activeAudioId = some id
    · cases hrem : s.audios.filter (fun audio => audio.id != id) with
      | nil =>
          left
          simp only [removeAudio]
          rw [if_pos hid, hrem]
          rfl
      | cons a rest =>
          right
          refine ⟨a, ?_, ?_⟩
          · simp only [removeAudio]
            rw [hrem]
            exact List.mem_cons_self a rest
          · simp only [removeAudio]
            rw [if_pos hid, hrem]
            rfl
    · rcases hinv with hnone | ⟨a, ha, haid⟩
      · left
        simp [removeAudio, if_neg hid, hnone]
      · right
        have hane : a.id ≠ id := by
          intro hEq
          rw [hEq] at haid
          exact hid haid
        refine ⟨a, ?_, ?_⟩
        · simp [removeAudio, List.mem_filter, ha, hane]
        · simp only [removeAudio]
          rw [if_neg hid]
          exact haid

/-- Witness for Claim C10: removing the active audio "x" from a two-audio
store. -/
theorem removeAudio_spec_witness :
    (∀ a : GeneratedAudio,
        a ∈ (removeAudio "x" ⟨[⟨"x", 1, 1⟩, ⟨"y", 2, 2⟩], some "x"⟩).audios ↔
          (a ∈ (⟨[⟨"x", 1, 1⟩, ⟨"y", 2, 2⟩], some "x"⟩ : StoreState).audios ∧
            a.id ≠ "x")) ∧
    ((⟨[⟨"x", 1, 1⟩, ⟨"y", 2, 2⟩], some "x"⟩ : StoreState).activeAudioId
          ≠ some "x" →
        (removeAudio "x" ⟨[⟨"x", 1, 1⟩, ⟨"y", 2, 2⟩], some "x"⟩).activeAudioId
          = (⟨[⟨"x", 1, 1⟩, ⟨"y", 2, 2⟩], some "x"⟩ : StoreState).activeAudioId) ∧
    ((⟨[⟨"x", 1, 1⟩, ⟨"y", 2, 2⟩], some "x"⟩ : StoreState).activeAudioId
          = some "x" →
        ((removeAudio "x" ⟨[⟨"x", 1, 1⟩, ⟨"y", 2, 2⟩], some "x"⟩).audios = [] →
            (removeAudio "x"
              ⟨[⟨"x", 1, 1⟩, ⟨"y", 2, 2⟩], some "x"⟩).activeAudioId = none) ∧
        (∀ a rest,
            (removeAudio "x"
                ⟨[⟨"x", 1, 1⟩, ⟨"y", 2, 2⟩], some "x"⟩).audios = a :: rest →
            (removeAudio "x"
                ⟨[⟨"x", 1, 1⟩, ⟨"y", 2, 2⟩], some "x"⟩).activeAudioId
              = some a.id)) ∧
    (((⟨[⟨"x", 1, 1⟩, ⟨"y", 2, 2⟩], some "x"⟩ : StoreState).activeAudioId = none ∨
        ∃ a ∈ (⟨[⟨"x", 1, 1⟩, ⟨"y", 2, 2⟩], some "x"⟩ : StoreState).audios,
          (⟨[⟨"x", 1, 1⟩, ⟨"y", 2, 2⟩], some "x"⟩ : StoreState).activeAudioId
            = some a.id) →
      ((removeAudio "x" ⟨[⟨"x", 1, 1⟩, ⟨"y", 2, 2⟩], some "x"⟩).activeAudioId
          = none ∨
        ∃ a ∈ (removeAudio "x" ⟨[⟨"x", 1, 1⟩, ⟨"y", 2, 2⟩], some "x"⟩).audios,
          (removeAudio "x" ⟨[⟨"x", 1, 1⟩, ⟨"y", 2, 2⟩], some "x"⟩).activeAudioId
            = some a.id)) :=
  removeAudio_spec "x" ⟨[⟨"x", 1, 1⟩, ⟨"y", 2, 2⟩], some "x"⟩

/-- The clamped seek time of `drawMedia` (line 196):
`Math.max(0, Math.min(timestamp, reportedDuration - 0.05))`. -/
def seekTarget (timestamp reportedDuration : ℚ) : ℚ :=
  max 0 (min timestamp (reportedDuration - 1 / 20))

/-- The seek guard of `drawMedia` (line 197): seek only when the drift
between the video's current position and the clamped time exceeds 0.03. -/
def shouldSeek (currentTime timestamp reportedDuration : ℚ) : Bool :=
  decide (|currentTime - seekTarget timestamp reportedDuration| > 3 / 100)

/-- Claim C8, counterexample to the claim as stated: for an asset whose
reported duration is 0.04 (< 0.05), the assigned seek time is 0, which does
NOT lie in [0, reportedDuration − 0.05] — that interval is empty. -/
theorem drawMedia_seek_clamp_counterexample :
    ¬ (seekTarget 1 (1 / 25) ≤ 1 / 25 - 1 / 20) := by
  norm_num [seekTarget, min_def, max_def]

/-- Claim C8 (amended): the assigned seek time is never negative, and it is
at most reportedDuration − 0.05 (hence strictly before the reported end)
whenever the reported duration is at least 0.05; a seek is issued only when
the drift between the video's current position and the clamped target
exceeds the 0.03-second tolerance. -/
theorem drawMedia_seek_bounds (timestamp reportedDuration currentTime : ℚ) :
    0 ≤ seekTarget timestamp reportedDuration ∧
    (1 / 20 ≤ reportedDuration →
      seekTarget timestamp reportedDuration ≤ reportedDuration - 1 / 20) ∧
    (shouldSeek currentTime timestamp reportedDuration = true →
      |currentTime - seekTarget timestamp reportedDuration| > 3 / 100) := by
  refine ⟨le_max_left 0 _, ?_, ?_⟩
  · intro hD
    apply max_le
    · linarith
    · exact min_le_right _ _
  · intro h
    simpa [shouldSeek] using h

/-- Witness for the amended Claim C8 at timestamp 2, duration 1, current
position 0. -/
theorem drawMedia_seek_bounds_witness :
    0 ≤ seekTarget 2 1 ∧
    ((1 : ℚ) / 20 ≤ 1 → seekTarget 2 1 ≤ 1 - 1 / 20) ∧
    (shouldSeek 0 2 1 = true → |(0 : ℚ) - seekTarget 2 1| > 3 / 100) :=
  drawMedia_seek_bounds 2 1 0

end VideoComposer
